import Mathlib

/-!
Verification of the `rate-limit-queue` Rust crate (`src/lib.rs`), shallowly
embedded in Lean 4.

Modelling conventions:

* `Duration` and `Instant` are modelled as natural numbers (nanosecond
  counts).  `Instant::duration_since` saturates at zero for a monotonic
  clock, which matches truncated `Nat` subtraction.
* `Duration::checked_sub` is modelled by `checkedSub`.
* `usize` arithmetic is `Nat` arithmetic, except that the unguarded
  subtraction `self.quantum - 1` in `try_dequeue` underflows when
  `quantum = 0`; that underflow is a Rust arithmetic-overflow program error
  (a panic in debug builds) and is modelled by returning `none`.
  Accordingly the effectful operations return `Option` values where a
  panic is reachable.
* `VecDeque<T>` is modelled as `List T`: `push_back` appends, `pop_front`
  takes the head.
* `Instant::now()` is passed to each operation as an explicit `now`
  argument.
-/

/-- Result of `try_dequeue()`, from `enum DequeueResult<T>` in `src/lib.rs`. -/
inductive DequeueResult (T : Type) where
  | Data : T → DequeueResult T
  | Empty : DequeueResult T
  | Limit : Nat → DequeueResult T
  deriving Repr, DecidableEq

/-- The state of `struct RateLimitQueue<T>` in `src/lib.rs`:
`quantum`, `interval`, `queue`, `allowance`, `timepoint`. -/
structure RateLimitQueue (T : Type) where
  quantum : Nat
  interval : Nat
  queue : List T
  allowance : Nat
  timepoint : Nat
  deriving Repr, DecidableEq

namespace RateLimitQueue

/-- `Duration::checked_sub`: `some (a - b)` when `b ≤ a`, otherwise `none`. -/
def checkedSub (a b : Nat) : Option Nat :=
  if b ≤ a then some (a - b) else none

/-- `RateLimitQueue::with_capacity(cap, quantum, interval)` (capacity is a
storage hint with no semantic content, so it is dropped): the queue starts
empty with `allowance = quantum` and `timepoint = Instant::now()`, the latter
passed as `now`.  `new` delegates here with `cap = 0`. -/
def withCapacity (T : Type) (quantum interval now : Nat) : RateLimitQueue T :=
  { quantum := quantum
    interval := interval
    queue := []
    allowance := quantum
    timepoint := now }

/-- `RateLimitQueue::set_quantum`: replaces `quantum`, touching nothing else. -/
def setQuantum (s : RateLimitQueue T) (quantum : Nat) : RateLimitQueue T :=
  { s with quantum := quantum }

/-- `RateLimitQueue::set_interval`: replaces `interval`, touching nothing else. -/
def setInterval (s : RateLimitQueue T) (interval : Nat) : RateLimitQueue T :=
  { s with interval := interval }

/-- `RateLimitQueue::enqueue`: `self.queue.push_back(value)`. -/
def enqueue (s : RateLimitQueue T) (value : T) : RateLimitQueue T :=
  { s with queue := s.queue ++ [value] }

/-- `Extend::extend for RateLimitQueue`: `self.queue.extend(iter)`, appending
every item of the iterator to the back of the backing deque. -/
def extendItems (s : RateLimitQueue T) (items : List T) : RateLimitQueue T :=
  { s with queue := s.queue ++ items }

/-- `RateLimitQueue::try_dequeue`, translated branch for branch:

```rust
if self.queue.is_empty() { return DequeueResult::Empty; }
if self.allowance > 0 { self.allowance -= 1; return self.queue.pop_front().into(); }
let now = Instant::now();
let elapsed = now.duration_since(self.timepoint);
match self.interval.checked_sub(elapsed) {
    Some(rest) => DequeueResult::Limit(rest),
    None => {
        self.allowance = self.quantum - 1;
        self.timepoint = now;
        self.queue.pop_front().into()
    }
}
```

The rollover branch computes `self.quantum - 1` on `usize` without a guard;
with `quantum = 0` this underflows (a panic in debug builds), modelled as
`none`.  Every non-panicking outcome is `some (result, new state)`. -/
def tryDequeue (s : RateLimitQueue T) (now : Nat) :
    Option (DequeueResult T × RateLimitQueue T) :=
  match s.queue with
  | [] => some (DequeueResult.Empty, s)
  | v :: rest =>
    if 0 < s.allowance then
      some (DequeueResult.Data v, { s with allowance := s.allowance - 1, queue := rest })
    else
      let elapsed := now - s.timepoint
      match checkedSub s.interval elapsed with
      | some d => some (DequeueResult.Limit d, s)
      | none =>
        if s.quantum = 0 then
          none
        else
          some (DequeueResult.Data v,
            { s with allowance := s.quantum - 1, timepoint := now, queue := rest })

/-- `RateLimitQueue::iter`: `self.queue.iter().take(self.allowance)`.  The Rust
iterator only reads the deque, so the model is a pure function of the state
returning the yielded sequence. -/
def iterItems (s : RateLimitQueue T) : List T :=
  s.queue.take s.allowance

/-- `RateLimitQueue::iter_mut`: `self.queue.iter_mut().take(self.allowance)`.
It yields mutable references to exactly the same elements as `iter` and
performs no removal or reordering, so the yielded sequence coincides with
`iterItems`. -/
def iterMutItems (s : RateLimitQueue T) : List T :=
  s.queue.take s.allowance

/-- `RateLimitQueue::dequeue` with the sleep made explicit:

```rust
match self.try_dequeue() {
    DequeueResult::Data(value) => Some(value),
    DequeueResult::Empty => None,
    DequeueResult::Limit(rest) => {
        thread::sleep(rest);
        if let DequeueResult::Data(value) = self.try_dequeue() {
            Some(value)
        } else {
            unreachable!()
        }
    }
}
```

The first `try_dequeue` runs at `now`; after `Limit d` the thread sleeps at
least `d`, so the second call runs at `now + d + eps` where `eps` is the
overshoot of the sleep plus the time between the first clock read and the
second (`eps = 0` models a sleep of exactly `d` with an instantaneous retry).
The `unreachable!()` panic, and any panic propagated out of `try_dequeue`,
are modelled as `none`. -/
def dequeue (s : RateLimitQueue T) (now eps : Nat) :
    Option (Option T × RateLimitQueue T) :=
  match tryDequeue s now with
  | none => none
  | some (DequeueResult.Data v, s1) => some (some v, s1)
  | some (DequeueResult.Empty, s1) => some (none, s1)
  | some (DequeueResult.Limit d, s1) =>
    match tryDequeue s1 (now + d + eps) with
    | some (DequeueResult.Data v, s2) => some (some v, s2)
    | _ => none

/-- One `try_dequeue` call per entry of `times`; a panic aborts the trace.
Returns the list of results together with the final state. -/
def runCalls (s : RateLimitQueue T) : List Nat → List (DequeueResult T) × RateLimitQueue T
  | [] => ([], s)
  | t :: ts =>
    match tryDequeue s t with
    | none => ([], s)
    | some (r, s1) =>
      let p := runCalls s1 ts
      (r :: p.1, p.2)

/-- Number of `Data` results in a list of dequeue results. -/
def countData : List (DequeueResult T) → Nat
  | [] => 0
  | DequeueResult.Data _ :: rs => countData rs + 1
  | DequeueResult.Empty :: rs => countData rs
  | DequeueResult.Limit _ :: rs => countData rs

/-- Exhaustive removal: call `try_dequeue` repeatedly, collecting `Data`
items; on `Limit d` retry after waiting `d + 1` (a real sleep waits at least
`d` and the next clock read is strictly later); stop at `Empty`.  `fuel`
bounds the number of calls; exhausting it, or a panic, yields `none`. -/
def drain (fuel : Nat) (s : RateLimitQueue T) (now : Nat) : Option (List T) :=
  match fuel with
  | 0 => none
  | fuel + 1 =>
    match tryDequeue s now with
    | none => none
    | some (DequeueResult.Empty, _) => some []
    | some (DequeueResult.Data v, s1) => (drain fuel s1 now).map (fun l => v :: l)
    | some (DequeueResult.Limit d, s1) => drain fuel s1 (now + d + 1)

end RateLimitQueue

open RateLimitQueue

/-- Helper: `try_dequeue` preserves `allowance ≤ quantum`. -/
theorem tryDequeue_allowance_le (T : Type) (s s1 : RateLimitQueue T) (now : Nat)
    (r : DequeueResult T) (hinv : s.allowance ≤ s.quantum)
    (h : tryDequeue s now = some (r, s1)) : s1.allowance ≤ s1.quantum := by
  rcases s with ⟨q, i, queue, a, t⟩
  cases queue with
  | nil =>
    simp [tryDequeue] at h
    rw [← h.2]
    exact hinv
  | cons v rest =>
    simp only [tryDequeue] at h
    by_cases hA : 0 < a
    · simp only [if_pos hA, Option.some.injEq, Prod.mk.injEq] at h
      rw [← h.2]
      exact Nat.le_trans (Nat.sub_le a 1) hinv
    · simp only [if_neg hA] at h
      rcases hcs : checkedSub i (now - t) with _ | d0
      · rw [hcs] at h
        by_cases hq : q = 0
        · simp [hq] at h
        · simp only [if_neg hq, Option.some.injEq, Prod.mk.injEq] at h
          rw [← h.2]
          exact Nat.sub_le q 1
      · rw [hcs] at h
        simp only [Option.some.injEq, Prod.mk.injEq] at h
        rw [← h.2]
        exact hinv

/-- C1, counterexample to the claim as stated: with `interval = 10` and the
window exhausted, a call at elapsed time exactly `10` returns `Limit 0`, not
`Data` — `Duration::checked_sub` yields `Some(Duration::ZERO)` at equality,
so rollover only happens for `elapsed > interval`, and the returned wait can
be `0`, contradicting `0 < interval - elapsed`. -/
theorem c1_counterexample :
    tryDequeue (T := Nat) ⟨1, 10, [0], 0, 0⟩ 10 =
      some (DequeueResult.Limit 0, ⟨1, 10, [0], 0, 0⟩) := by
  decide

/-- C1, amended: on a non-empty queue with `allowance = 0`, if
`elapsed ≤ interval` the call returns `Limit (interval - elapsed)` with
`interval - elapsed ≤ interval`, strictly positive whenever
`elapsed < interval` (and `0` exactly at `elapsed = interval`), leaving the
state unchanged; if `elapsed > interval` and `rate > 0`, the call rolls the
window over — `allowance := rate - 1`, `window_start := now` — and returns
`Data` with the head item. -/
theorem c1_exhausted_window (T : Type) (s : RateLimitQueue T) (v : T)
    (rest : List T) (now : Nat) (hq : s.queue = v :: rest)
    (ha : s.allowance = 0) :
    (now - s.timepoint ≤ s.interval →
      tryDequeue s now =
        some (DequeueResult.Limit (s.interval - (now - s.timepoint)), s) ∧
      s.interval - (now - s.timepoint) ≤ s.interval ∧
      (now - s.timepoint < s.interval → 0 < s.interval - (now - s.timepoint))) ∧
    (s.interval < now - s.timepoint → 0 < s.quantum →
      tryDequeue s now = some (DequeueResult.Data v,
        { s with queue := rest, allowance := s.quantum - 1, timepoint := now })) := by
  rcases s with ⟨q, i, queue, a, t⟩
  simp only at hq ha
  subst hq ha
  constructor
  · intro hle
    refine ⟨?_, Nat.sub_le i (now - t), fun hlt => Nat.sub_pos_of_lt hlt⟩
    simp [tryDequeue, checkedSub, hle]
  · intro hlt hqz
    have hns : ¬ (now - t ≤ i) := Nat.not_le_of_lt hlt
    have hq0 : ¬ (q = 0) := Nat.pos_iff_ne_zero.mp hqz
    simp [tryDequeue, checkedSub, hns, hq0]

/-- Witness for C1 at concrete inputs: with `interval = 10`, `allowance = 0`
and one queued item, a call at elapsed `3` yields `Limit 7` and a call at
elapsed `11` rolls over and yields `Data`. -/
theorem c1_exhausted_window_witness :
    tryDequeue (T := Nat) ⟨2, 10, [5], 0, 0⟩ 3 =
      some (DequeueResult.Limit 7, ⟨2, 10, [5], 0, 0⟩) ∧
    tryDequeue (T := Nat) ⟨2, 10, [5], 0, 0⟩ 11 =
      some (DequeueResult.Data 5, ⟨2, 10, [], 1, 11⟩) := by
  constructor
  · have h := (c1_exhausted_window Nat ⟨2, 10, [5], 0, 0⟩ 5 [] 3 rfl rfl).1
      (by decide)
    simpa using h.1
  · have h := (c1_exhausted_window Nat ⟨2, 10, [5], 0, 0⟩ 5 [] 11 rfl rfl).2
      (by decide) (by decide)
    simpa using h

/-- C2: the claim matches the spec, but the code has a slip.  With
`quantum = 0` (legal after `set_quantum(0)`), a rollover — non-empty queue,
`allowance = 0`, `elapsed > interval` — executes `self.allowance =
self.quantum - 1`, i.e. `0usize - 1`, an arithmetic underflow (panic in
debug builds) instead of the specified `Limit` with `allowance = 0` and a
re-armed `window_start`.  The model evaluates the failing input to the
panic value `none`. -/
theorem c2_quantum_zero_rollover_panics :
    tryDequeue (T := Nat) ⟨0, 5, [42], 0, 0⟩ 6 = none := by
  decide

/-- C3, counterexample to the claim as stated: `set_quantum` does not clamp
`allowance`, so lowering the quantum from `5` to `2` on a fresh queue leaves
`allowance = 5 > 2 = rate`, violating `allowance ≤ rate`. -/
theorem c3_counterexample :
    ¬ ((setQuantum (withCapacity Nat 5 1 0) 2).allowance ≤
        (setQuantum (withCapacity Nat 5 1 0) 2).quantum) := by
  decide

/-- C3, amended: `0 ≤ allowance ≤ rate` holds at construction and is
preserved by `enqueue`, `extend`, `try_dequeue`, `dequeue`, `set_interval`,
iteration and the pass-through operations (the latter two read-only in the
model), but not by `set_quantum`, which can lower `rate` below the current
`allowance`; the bound is then restored only at the next rollover. -/
theorem c3_allowance_bound (T : Type) (q i t now eps n : Nat)
    (s s1 s2 : RateLimitQueue T) (v : T) (xs : List T) (r : DequeueResult T)
    (o : Option T) (hinv : s.allowance ≤ s.quantum) :
    (withCapacity T q i t).allowance ≤ (withCapacity T q i t).quantum ∧
    (enqueue s v).allowance ≤ (enqueue s v).quantum ∧
    (extendItems s xs).allowance ≤ (extendItems s xs).quantum ∧
    (setInterval s n).allowance ≤ (setInterval s n).quantum ∧
    (tryDequeue s now = some (r, s1) → s1.allowance ≤ s1.quantum) ∧
    (dequeue s now eps = some (o, s2) → s2.allowance ≤ s2.quantum) := by
  refine ⟨Nat.le_refl q, hinv, hinv, hinv,
    fun h => tryDequeue_allowance_le T s s1 now r hinv h, fun h => ?_⟩
  unfold dequeue at h
  rcases h1 : tryDequeue s now with _ | ⟨r1, t1⟩
  · rw [h1] at h
    cases h
  · rw [h1] at h
    have hinv1 : t1.allowance ≤ t1.quantum :=
      tryDequeue_allowance_le T s t1 now r1 hinv h1
    cases r1 with
    | Data v1 =>
      simp only [Option.some.injEq, Prod.mk.injEq] at h
      rw [← h.2]
      exact hinv1
    | Empty =>
      simp only [Option.some.injEq, Prod.mk.injEq] at h
      rw [← h.2]
      exact hinv1
    | Limit d =>
      dsimp only at h
      rcases h2 : tryDequeue t1 (now + d + eps) with _ | ⟨r2, t2⟩
      · rw [h2] at h
        cases h
      · rw [h2] at h
        have hinv2 : t2.allowance ≤ t2.quantum :=
          tryDequeue_allowance_le T t1 t2 (now + d + eps) r2 hinv1 h2
        cases r2 with
        | Data v2 =>
          simp only [Option.some.injEq, Prod.mk.injEq] at h
          rw [← h.2]
          exact hinv2
        | Empty => cases h
        | Limit d2 => cases h

/-- Witness for C3 at a concrete input: from the state
`⟨2, 10, [5], 1, 0⟩` (allowance `1 ≤ 2` = quantum), `try_dequeue` at time
`0` yields `Data 5` and the bound holds in the resulting state. -/
theorem c3_allowance_bound_witness :
    (⟨2, 10, [], 0, 0⟩ : RateLimitQueue Nat).allowance ≤
      (⟨2, 10, [], 0, 0⟩ : RateLimitQueue Nat).quantum := by
  have h := c3_allowance_bound Nat 3 7 0 0 0 4 ⟨2, 10, [5], 1, 0⟩
    ⟨2, 10, [], 0, 0⟩ ⟨2, 10, [], 0, 0⟩ 5 [] (DequeueResult.Data 5) (some 5)
    (by decide)
  exact h.2.2.2.2.1 (by decide)

/-- C5: when the backing queue is empty, `try_dequeue` returns `Empty` and
leaves the state unchanged, whatever `allowance`, `quantum`, `interval`,
`timepoint` and `now` are: the emptiness check precedes every allowance or
clock inspection. -/
theorem c5_empty_priority (T : Type) (q i a t now : Nat) :
    tryDequeue (T := T) ⟨q, i, [], a, t⟩ now =
      some (DequeueResult.Empty, ⟨q, i, [], a, t⟩) := by
  rfl

/-- C8: a `try_dequeue` call that returns `Empty` or `Limit` leaves the whole
state unchanged: queue contents and order, `allowance`, `quantum`,
`interval` and `timepoint` all keep their previous values. -/
theorem c8_no_side_effect (T : Type) (s s' : RateLimitQueue T) (now : Nat)
    (h : tryDequeue s now = some (DequeueResult.Empty, s') ∨
         ∃ d, tryDequeue s now = some (DequeueResult.Limit d, s')) :
    s' = s := by
  have hne : ∃ r, tryDequeue s now = some (r, s') ∧ ∀ v, r ≠ DequeueResult.Data v := by
    rcases h with h | ⟨d, h⟩
    · exact ⟨_, h, fun v hv => by cases hv⟩
    · exact ⟨_, h, fun v hv => by cases hv⟩
  rcases hne with ⟨r, h1, h2⟩
  rcases s with ⟨q, i, queue, a, t⟩
  cases queue with
  | nil =>
    simp [tryDequeue] at h1
    simp [h1.2]
  | cons v rest =>
    simp only [tryDequeue] at h1
    by_cases hA : 0 < a
    · simp only [if_pos hA, Option.some.injEq, Prod.mk.injEq] at h1
      exact absurd h1.1.symm (h2 v)
    · simp only [if_neg hA] at h1
      rcases hcs : checkedSub i (now - t) with _ | d0
      · rw [hcs] at h1
        by_cases hq : q = 0
        · simp [hq] at h1
        · simp only [if_neg hq, Option.some.injEq, Prod.mk.injEq] at h1
          exact absurd h1.1.symm (h2 v)
      · rw [hcs] at h1
        simp only [Option.some.injEq, Prod.mk.injEq] at h1
        simp [h1.2]

/-- Witness for C8 at a concrete input: a queue of one item with exhausted
allowance inside its window returns `Limit` and the state is unchanged. -/
theorem c8_no_side_effect_witness :
    (⟨2, 10, [5], 0, 0⟩ : RateLimitQueue Nat) = ⟨2, 10, [5], 0, 0⟩ :=
  c8_no_side_effect Nat ⟨2, 10, [5], 0, 0⟩ ⟨2, 10, [5], 0, 0⟩ 3
    (Or.inr ⟨7, by decide⟩)

/-- C4, counterexample to the claim as stated: after `Limit d`, sleeping for
exactly `d` and retrying makes the retry observe `elapsed = interval`, where
`checked_sub` still yields `Some(Duration::ZERO)`: the retry returns
`Limit 0`, not `Data`, and the `unreachable!()` branch panics (modelled as
`none`).  Concretely: one queued item, `allowance = 0`, `interval = 10`,
first call at elapsed `0` returns `Limit 10`; the retry at elapsed exactly
`10` returns `Limit 0`. -/
theorem c4_counterexample :
    dequeue (T := Nat) ⟨1, 10, [7], 0, 0⟩ 0 0 = none := by
  decide

/-- C4, amended: if the sleep overshoots the returned wait by any positive
amount (a real `thread::sleep` waits at least `d` and the next clock read is
strictly later) and `rate > 0`, the retry after `Limit d` returns `Data`,
the `unreachable!()` branch is not taken, and `dequeue` returns the head
item on a non-empty queue and `None` on an empty one. -/
theorem c4_dequeue (T : Type) (s : RateLimitQueue T) (now eps : Nat)
    (ht : s.timepoint ≤ now) (hq : 0 < s.quantum) (he : 0 < eps) :
    Option.map Prod.fst (dequeue s now eps) = some s.queue.head? := by
  rcases s with ⟨q, i, queue, a, t⟩
  simp only at ht hq ⊢
  cases queue with
  | nil => simp [dequeue, tryDequeue]
  | cons v rest =>
    by_cases hA : 0 < a
    · simp [dequeue, tryDequeue, hA]
    · by_cases hel : now - t ≤ i
      · have h1 : tryDequeue (⟨q, i, v :: rest, a, t⟩ : RateLimitQueue T) now
            = some (DequeueResult.Limit (i - (now - t)), ⟨q, i, v :: rest, a, t⟩) := by
          simp [tryDequeue, hA, checkedSub, hel]
        have harith : ¬ ((now + (i - (now - t)) + eps) - t ≤ i) := by omega
        have h2 : tryDequeue (⟨q, i, v :: rest, a, t⟩ : RateLimitQueue T)
            (now + (i - (now - t)) + eps)
            = some (DequeueResult.Data v,
                ⟨q, i, rest, q - 1, now + (i - (now - t)) + eps⟩) := by
          simp [tryDequeue, hA, checkedSub, harith, Nat.pos_iff_ne_zero.mp hq]
        simp [dequeue, h1, h2]
      · have h1 : tryDequeue (⟨q, i, v :: rest, a, t⟩ : RateLimitQueue T) now
            = some (DequeueResult.Data v, ⟨q, i, rest, q - 1, now⟩) := by
          simp [tryDequeue, hA, checkedSub, hel, Nat.pos_iff_ne_zero.mp hq]
        simp [dequeue, h1]

/-- Witness for C4 at a concrete input: `interval = 10`, one queued item,
`allowance = 0`, first call at elapsed `0`, sleep overshoot `1`: `dequeue`
returns the head item `7`. -/
theorem c4_dequeue_witness :
    Option.map Prod.fst (dequeue (T := Nat) ⟨1, 10, [7], 0, 0⟩ 0 1) =
      some (some 7) := by
  simpa using c4_dequeue Nat ⟨1, 10, [7], 0, 0⟩ 0 1 (by decide) (by decide)
    (by decide)

/-- Helper: folding `enqueue` over a list appends the list to the backing
queue and changes nothing else. -/
theorem foldl_enqueue_spec (T : Type) (xs : List T) :
    ∀ s : RateLimitQueue T,
      List.foldl enqueue s xs = { s with queue := s.queue ++ xs } := by
  induction xs with
  | nil => intro s; simp
  | cons x xs ih =>
    intro s
    simp only [List.foldl_cons]
    rw [ih (enqueue s x)]
    simp [enqueue]

/-- Helper: with a positive quantum and a monotonic clock, exhaustive
removal (retrying strictly after the returned wait on each `Limit`) with
fuel at least `2·length + 1` drains the whole backing queue in order. -/
theorem drain_eq_queue (T : Type) (f : Nat) :
    ∀ (s : RateLimitQueue T) (now : Nat), s.timepoint ≤ now → 0 < s.quantum →
      2 * s.queue.length + 1 ≤ f → drain f s now = some s.queue := by
  induction f using Nat.strong_induction_on with
  | _ f ih =>
    intro s now ht hq hf
    rcases s with ⟨q, i, queue, a, t⟩
    simp only at ht hq hf ⊢
    cases queue with
    | nil =>
      cases f with
      | zero => omega
      | succ f1 => simp [drain, tryDequeue]
    | cons v rest =>
      cases f with
      | zero => simp at hf
      | succ f1 =>
        by_cases hA : 0 < a
        · have h1 : tryDequeue (⟨q, i, v :: rest, a, t⟩ : RateLimitQueue T) now
              = some (DequeueResult.Data v, ⟨q, i, rest, a - 1, t⟩) := by
            simp [tryDequeue, hA]
          have h2 : drain f1 (⟨q, i, rest, a - 1, t⟩ : RateLimitQueue T) now
              = some rest := by
            apply ih f1 (Nat.lt_succ_self f1) ⟨q, i, rest, a - 1, t⟩ now ht hq
            simp at hf ⊢
            omega
          simp [drain, h1, h2]
        · by_cases hel : now - t ≤ i
          · have h1 : tryDequeue (⟨q, i, v :: rest, a, t⟩ : RateLimitQueue T) now
                = some (DequeueResult.Limit (i - (now - t)),
                    ⟨q, i, v :: rest, a, t⟩) := by
              simp [tryDequeue, hA, checkedSub, hel]
            cases f1 with
            | zero => simp at hf
            | succ f2 =>
              have harith : ¬ ((now + (i - (now - t)) + 1) - t ≤ i) := by omega
              have h2 : tryDequeue (⟨q, i, v :: rest, a, t⟩ : RateLimitQueue T)
                  (now + (i - (now - t)) + 1)
                  = some (DequeueResult.Data v,
                      ⟨q, i, rest, q - 1, now + (i - (now - t)) + 1⟩) := by
                simp [tryDequeue, hA, checkedSub, harith, Nat.pos_iff_ne_zero.mp hq]
              have h3 : drain f2 (⟨q, i, rest, q - 1,
                  now + (i - (now - t)) + 1⟩ : RateLimitQueue T)
                  (now + (i - (now - t)) + 1) = some rest := by
                apply ih f2 (by omega) ⟨q, i, rest, q - 1, now + (i - (now - t)) + 1⟩
                  (now + (i - (now - t)) + 1) (Nat.le_refl _) hq
                simp at hf ⊢
                omega
              simp [drain, h1, h2, h3]
          · have h1 : tryDequeue (⟨q, i, v :: rest, a, t⟩ : RateLimitQueue T) now
                = some (DequeueResult.Data v, ⟨q, i, rest, q - 1, now⟩) := by
              simp [tryDequeue, hA, checkedSub, hel, Nat.pos_iff_ne_zero.mp hq]
            have h2 : drain f1 (⟨q, i, rest, q - 1, now⟩ : RateLimitQueue T) now
                = some rest := by
              apply ih f1 (Nat.lt_succ_self f1) ⟨q, i, rest, q - 1, now⟩ now
                (Nat.le_refl _) hq
              simp at hf ⊢
              omega
            simp [drain, h1, h2]

/-- C6: enqueueing any sequence of items into a fresh queue with positive
quantum and then removing exhaustively — retrying on every `Limit` after
its wait has passed, until `Empty` — returns exactly the enqueued items in
enqueue order. -/
theorem c6_fifo (T : Type) (xs : List T) (q i t0 now f : Nat) (hq : 0 < q)
    (ht : t0 ≤ now) (hf : 2 * xs.length + 1 ≤ f) :
    drain f (List.foldl enqueue (withCapacity T q i t0) xs) now = some xs := by
  rw [foldl_enqueue_spec]
  have h := drain_eq_queue T f ⟨q, i, [] ++ xs, q, t0⟩ now ht hq
    (by simpa using hf)
  simpa [withCapacity] using h

/-- Witness for C6 at a concrete input: items `[1, 2, 3]`, quantum `2`,
interval `10`: exhaustive removal returns `[1, 2, 3]`. -/
theorem c6_fifo_witness :
    drain 7 (List.foldl enqueue (withCapacity Nat 2 10 0) [1, 2, 3]) 0 =
      some [1, 2, 3] :=
  c6_fifo Nat [1, 2, 3] 2 10 0 0 7 (by decide) (by decide) (by decide)

/-- Helper: a trace of `try_dequeue` calls all scheduled inside the current
window (each call time at most `timepoint + interval`) yields at most
`allowance` many `Data` results: no call can take the rollover branch. -/
theorem runCalls_countData_le (T : Type) (times : List Nat) :
    ∀ s : RateLimitQueue T, (∀ x ∈ times, x ≤ s.timepoint + s.interval) →
      countData (runCalls s times).1 ≤ s.allowance := by
  induction times with
  | nil => intro s h; simp [runCalls, countData]
  | cons x ts ih =>
    intro s h
    have hx : x ≤ s.timepoint + s.interval := h x (List.mem_cons_self x ts)
    have hts : ∀ y ∈ ts, y ≤ s.timepoint + s.interval :=
      fun y hy => h y (List.mem_cons_of_mem x hy)
    rcases s with ⟨q, i, queue, a, t⟩
    simp only at hx hts ⊢
    cases queue with
    | nil =>
      have h2 := ih ⟨q, i, [], a, t⟩ hts
      simp only [runCalls, tryDequeue]
      simpa [countData] using h2
    | cons v rest =>
      by_cases hA : 0 < a
      · have h1 : tryDequeue (⟨q, i, v :: rest, a, t⟩ : RateLimitQueue T) x
            = some (DequeueResult.Data v, ⟨q, i, rest, a - 1, t⟩) := by
          simp [tryDequeue, hA]
        have h2 := ih ⟨q, i, rest, a - 1, t⟩ hts
        simp only [runCalls, h1]
        simp only at h2
        simp [countData]
        omega
      · have hel : x - t ≤ i := by omega
        have h1 : tryDequeue (⟨q, i, v :: rest, a, t⟩ : RateLimitQueue T) x
            = some (DequeueResult.Limit (i - (x - t)), ⟨q, i, v :: rest, a, t⟩) := by
          simp [tryDequeue, hA, checkedSub, hel]
        have h2 := ih ⟨q, i, v :: rest, a, t⟩ hts
        simp only [runCalls, h1]
        simpa [countData] using h2

/-- C7: starting from any state satisfying `allowance ≤ rate`, a trace of
`try_dequeue` calls confined to a single window (every call happens before
the window elapses, so no rollover occurs) returns at most `rate` many
`Data` results. -/
theorem c7_window_bound (T : Type) (s : RateLimitQueue T) (times : List Nat)
    (hinv : s.allowance ≤ s.quantum)
    (hw : ∀ x ∈ times, x ≤ s.timepoint + s.interval) :
    countData (runCalls s times).1 ≤ s.quantum :=
  Nat.le_trans (runCalls_countData_le T times s hw) hinv

/-- Witness for C7 at a concrete input: rate `2`, interval `10`, three
queued items, four in-window calls: exactly two `Data` results. -/
theorem c7_window_bound_witness :
    countData (runCalls (⟨2, 10, [1, 2, 3], 2, 0⟩ : RateLimitQueue Nat)
      [0, 1, 2, 3]).1 ≤ 2 :=
  c7_window_bound Nat ⟨2, 10, [1, 2, 3], 2, 0⟩ [0, 1, 2, 3] (by decide)
    (by decide)

/-- C9: `iter` (and `iter_mut`, which yields the same elements) is a pure
view of the state: it yields a prefix of the backing queue — the first
`min(allowance, length)` items in order — removes nothing, and, being a
function of the unchanged state, yields the same sequence on every call
with no intervening removal. -/
theorem c9_capped_iteration (T : Type) (s : RateLimitQueue T) :
    List.IsPrefix (iterItems s) s.queue ∧
    (iterItems s).length = min s.allowance s.queue.length ∧
    iterMutItems s = iterItems s := by
  refine ⟨List.take_prefix _ _, ?_, rfl⟩
  simp [iterItems]

/-- C10: `extend` over a finite iterator appends all items at the tail in
iterator order — it equals folding `enqueue` over the items — and leaves
`quantum`, `interval`, `allowance` and `timepoint` unchanged. -/
theorem c10_extend_spec (T : Type) (s : RateLimitQueue T) (xs : List T) :
    extendItems s xs = List.foldl enqueue s xs ∧
    (extendItems s xs).queue = s.queue ++ xs ∧
    (extendItems s xs).quantum = s.quantum ∧
    (extendItems s xs).interval = s.interval ∧
    (extendItems s xs).allowance = s.allowance ∧
    (extendItems s xs).timepoint = s.timepoint := by
  refine ⟨?_, rfl, rfl, rfl, rfl, rfl⟩
  rw [foldl_enqueue_spec]
  rfl
